import Mathlib

/-!
Verification development for the parser core of ratel-core
(`src/core/src/parser/mod.rs` and `src/core/src/parser/error.rs`).

The Rust code is shallowly embedded: the arena is erased (a `Ptr<'ast, T>`
becomes a plain value of the embedded `T`, which is sound because `Ptr`
equality is structural), `List`/`ListBuilder` become Lean lists with
`push` modelled as appending at the tail, and the lexer — an external
collaborator whose source is not part of the visible core — is modelled
from the spec as a list of spanned tokens with the current token at the
head.  Parser loops (`Parser::parse`, `raw_block`, `parameter_list`,
`params_from_expressions`) carry explicit fuel.  The statement, expression
and parameter-key sub-parsers live in submodules outside the visible core,
so every embedded operation that calls them is parametrised by an arbitrary
function of the corresponding type; concrete miniature instances modelled
from the spec are provided for evaluation on concrete inputs.
-/

namespace Ratel

/-- Modelled from the spec: token discriminants produced by the lexer
(an external collaborator).  Only the discriminants the visible parser
core switches on are embedded, plus identifier/number tokens so that
concrete inputs can be written down. -/
inductive Tok where
  | EndOfProgram
  | BraceOpen
  | BraceClose
  | ParenOpen
  | ParenClose
  | Comma
  | OperatorAssign
  | Semicolon
  | Identifier (name : String)
  | Number (value : String)
deriving DecidableEq, Repr

/-- Modelled from the spec: a token together with its source span. -/
structure SpannedTok where
  tok : Tok
  start : Nat
  stop : Nat
deriving DecidableEq, Repr

/-- Modelled from the spec: the diagnostic type (`error::Error`, whose
module is not part of the visible core).  `invalid_token()` reports the
current token and its span. -/
structure Error where
  start : Nat
  stop : Nat
  tok : Tok
deriving DecidableEq, Repr

/-- `Loc<T>`: a node payload annotated with its source span. -/
structure Loc (T : Type) where
  start : Nat
  stop : Nat
  item : T
deriving Repr

/-- Operator kinds; only `Assign` is inspected by the visible core, one
further representative operator is kept so that non-assignment binary
expressions exist. -/
inductive OperatorKind where
  | Assign
  | Addition
deriving DecidableEq, Repr

/-- Expressions.  The AST catalogue is an external collaborator; only the
variants the visible core constructs or inspects are embedded.  A Rust
`ExpressionPtr` (`Ptr<Loc<Expression>>`) becomes `Loc Expression`. -/
inductive Expression where
  | Identifier (name : String)
  | Literal (value : String)
  | Binary (op : OperatorKind) (left : Loc Expression) (right : Loc Expression)
  | Error

/-- Parameter keys; the source currently supports only plain identifiers
(pattern keys are a `TODO`). -/
inductive ParameterKey where
  | Identifier (name : String)
deriving Repr

/-- A parameter: a key plus an optional default-value expression. -/
structure Parameter where
  key : ParameterKey
  value : Option (Loc Expression)

/-- Statements; only the variants the visible core needs are embedded. -/
inductive Statement where
  | Empty
  | Expr (expression : Loc Expression)
  | Error

/-- A declarator: a name (an expression pointer in the source) plus an
optional initializer. -/
structure Declarator where
  name : Loc Expression
  value : Option (Loc Expression)

/-- Object members; only the variant the visible core constructs is
embedded together with one representative further variant. -/
inductive ObjectMember where
  | Shorthand (name : String)
  | Value (key : String) (value : Loc Expression)

/-- Class members; only the variant the visible core constructs is
embedded together with one representative further variant. -/
inductive ClassMember where
  | Constructor (params : List (Loc Parameter)) (body : List (Loc Statement))
  | Method (name : String) (params : List (Loc Parameter)) (body : List (Loc Statement))

/-- The `Name` capability: a binding identifier type that can produce an
"empty" (anonymous) binding. -/
class Name (N : Type) where
  empty : N

instance : Name (Option String) := ⟨none⟩

/-- `Function<N>`: generic over the naming capability. -/
structure Function (N : Type) where
  name : N
  params : List (Loc Parameter)
  body : List (Loc Statement)

/-- `Class<N>`: generic over the naming capability.  The source field
`extends` is a Lean keyword, so it is embedded as `superclass`. -/
structure Class (N : Type) where
  name : N
  superclass : Option (Loc Expression)
  body : List (Loc ClassMember)

/-- A block of items. -/
structure Block (I : Type) where
  body : List (Loc I)

/-- A module: the finalized top-level statement list (the arena is
erased). -/
structure Module where
  body : List (Loc Statement)

/-- The parser state: the remaining token stream (standing for the lexer),
the append-only error log, and the top-level body under construction. -/
structure PState where
  tokens : List SpannedTok
  errors : List Error
  body : List (Loc Statement)

namespace PState

/-- Modelled from the spec: the lexer's current token discriminant; at the
end of input it is `EndOfProgram`. -/
def token (st : PState) : Tok :=
  match st.tokens with
  | [] => Tok.EndOfProgram
  | t :: _ => t.tok

/-- Modelled from the spec: the lexer's current span (`loc()`). -/
def loc (st : PState) : Nat × Nat :=
  match st.tokens with
  | [] => (0, 0)
  | t :: _ => (t.start, t.stop)

/-- Modelled from the spec: `consume()` advances the lexer one token. -/
def consume (st : PState) : PState :=
  { st with tokens := st.tokens.tail }

/-- Modelled from the spec: `invalid_token()` reports a diagnostic for the
current token. -/
def invalidToken (st : PState) : Error :=
  ⟨(st.loc).1, (st.loc).2, st.token⟩

/-- `in_loc`: wrap a value with the current span. -/
def inLoc (st : PState) (item : T) : Loc T :=
  ⟨(st.loc).1, (st.loc).2, item⟩

end PState

/-- The `ToError` capability of `error.rs`: placeholder synthesis for a
scalar node category.  The arena argument of the source is erased, which
makes the absence of any side effect on the error log part of the type. -/
class ToError (T : Type) where
  toError : T

instance : ToError Statement := ⟨Statement.Error⟩

instance : ToError Expression := ⟨Expression.Error⟩

instance : ToError Declarator := ⟨{ name := ⟨0, 0, Expression.Error⟩, value := none }⟩

instance : ToError ObjectMember := ⟨ObjectMember.Shorthand ""⟩

instance : ToError ClassMember := ⟨ClassMember.Constructor [] []⟩

/-- The `Handle` capability of `error.rs`: error recovery for a node
category, given the parser state and a diagnostic. -/
class Handle (T : Type) where
  handleError : PState → Error → T × PState

instance {N : Type} [Name N] : Handle (Function N) where
  handleError st err :=
    ({ name := Name.empty, params := [], body := [] },
     { st with errors := st.errors ++ [err] })

instance {N : Type} [Name N] : Handle (Class N) where
  handleError st err :=
    ({ name := Name.empty, superclass := none, body := [] },
     { st with errors := st.errors ++ [err] })

instance {T : Type} [ToError T] : Handle (Loc T) where
  handleError st err :=
    let st2 : PState := { st with errors := st.errors ++ [err] }
    (st2.inLoc ToError.toError, st2)

instance {T : Type} : Handle (List (Loc T)) where
  handleError st err :=
    ([], { st with errors := st.errors ++ [err] })

/-- `Parser::error`: obtain `invalid_token()` from the lexer, record it,
and synthesize the placeholder of the requested category
(`mod.rs` lines 52-58 together with the `Handle` impls of `error.rs`). -/
def PState.error (T : Type) [Handle T] (st : PState) : T × PState :=
  Handle.handleError st st.invalidToken

/-- The type of the statement sub-parser (`self.statement()`, implemented
in a grammar submodule outside the visible core). -/
abbrev StmtP := PState → Loc Statement × PState

/-- The type of the parameter-key sub-parser (the `parameter_key!` macro,
outside the visible core). -/
abbrev KeyP := PState → ParameterKey × PState

/-- The type of the expression sub-parser at a fixed binding power
(`self.expression(B1)`, outside the visible core). -/
abbrev ExprP := PState → Loc Expression × PState

/-- Modelled from the spec: the lexer turns source text into tokens; on
empty input it is immediately at end-of-input.  A miniature
single-character tokenization suffices for concrete evaluations. -/
def tokenize (source : String) : List SpannedTok :=
  source.toList.enum.filterMap fun p =>
    match p.2 with
    | ';' => some ⟨Tok.Semicolon, p.1, p.1 + 1⟩
    | '{' => some ⟨Tok.BraceOpen, p.1, p.1 + 1⟩
    | '\x7d' => some ⟨Tok.BraceClose, p.1, p.1 + 1⟩
    | '(' => some ⟨Tok.ParenOpen, p.1, p.1 + 1⟩
    | ')' => some ⟨Tok.ParenClose, p.1, p.1 + 1⟩
    | ',' => some ⟨Tok.Comma, p.1, p.1 + 1⟩
    | '=' => some ⟨Tok.OperatorAssign, p.1, p.1 + 1⟩
    | c =>
      if c.isAlpha then some ⟨Tok.Identifier (String.mk [c]), p.1, p.1 + 1⟩
      else if c.isDigit then some ⟨Tok.Number (String.mk [c]), p.1, p.1 + 1⟩
      else none

/-- `Parser::new`: a lexer over the source, an empty error log, an empty
body. -/
def PState.new (source : String) : PState := ⟨tokenize source, [], []⟩

/-- The while-loop of `Parser::parse`: keep parsing statements and pushing
them into the list builder until `EndOfProgram` is current.  Fuel makes
the loop structurally recursive; exhausted fuel stops the loop. -/
def parseBodyLoop (stmtP : StmtP) :
    Nat → List (Loc Statement) → PState → List (Loc Statement) × PState
  | 0, acc, st => (acc, st)
  | fuel + 1, acc, st =>
    if st.token = Tok.EndOfProgram then (acc, st)
    else
      let sp := stmtP st
      parseBodyLoop stmtP fuel (acc ++ [sp.1]) sp.2

/-- `Parser::parse` (mod.rs lines 101-115): return at once when the lexer
is already at end-of-input; otherwise parse the first statement, seed the
builder with it, loop until end-of-input, and store the finalized list in
the body. -/
def PState.parse (stmtP : StmtP) (fuel : Nat) (st : PState) : PState :=
  if st.token = Tok.EndOfProgram then st
  else
    let sp := stmtP st
    let bl := parseBodyLoop stmtP fuel [sp.1] sp.2
    { bl.2 with body := bl.1 }

/-- The top-level entry point `parse(source)` (mod.rs lines 245-260):
run a fresh parser to completion, then return `Ok(Module)` when the error
log is empty and `Err` with the error log otherwise. -/
def parse (stmtP : StmtP) (fuel : Nat) (source : String) :
    Except (List Error) Module :=
  let p := PState.parse stmtP fuel (PState.new source)
  match p.errors with
  | [] => Except.ok ⟨p.body⟩
  | errs => Except.error errs

/-- The while-loop of `raw_block`: parse items and push them until the
closing brace is current. -/
def rawBlockLoop {I : Type} (itemP : PState → Loc I × PState) :
    Nat → List (Loc I) → PState → List (Loc I) × PState
  | 0, acc, st => (acc, st)
  | fuel + 1, acc, st =>
    if st.token = Tok.BraceClose then (acc, st)
    else
      let ip := itemP st
      rawBlockLoop itemP fuel (acc ++ [ip.1]) ip.2

/-- `raw_block` (mod.rs lines 143-159): an empty body when the closing
brace is immediately current; otherwise parse the first item, seed a
builder, and loop until the closing brace is current. -/
def raw_block {I : Type} (itemP : PState → Loc I × PState) (fuel : Nat)
    (st : PState) : Block I × PState :=
  if st.token = Tok.BraceClose then (⟨[]⟩, st)
  else
    let ip := itemP st
    let bl := rawBlockLoop itemP fuel [ip.1] ip.2
    (⟨bl.1⟩, bl.2)

/-- The spec's description of the non-empty `raw_block` case, in cons
form: repeatedly parse items, in parse order, until the closing brace is
current. -/
def itemsUntilBrace {I : Type} (itemP : PState → Loc I × PState) :
    Nat → PState → List (Loc I) × PState
  | 0, st => ([], st)
  | fuel + 1, st =>
    if st.token = Tok.BraceClose then ([], st)
    else
      let ip := itemP st
      let r := itemsUntilBrace itemP fuel ip.2
      (ip.1 :: r.1, r.2)

/-- Modelled from the spec: the per-parameter placeholder.  The impl for
the scalar `Parameter` category is not part of the visible core; per the
spec every node category synthesizes a neutral, structurally valid
instance — here an empty-named key with no default. -/
instance : ToError Parameter := ⟨⟨ParameterKey.Identifier "", none⟩⟩

/-- `param_from_expression` (mod.rs lines 161-182): a top-level `Assign`
binary expression splits into key and default value, any other expression
is the key with no default; a non-identifier key triggers recovery for a
single parameter. -/
def param_from_expression (st : PState) (expression : Loc Expression) :
    Loc Parameter × PState :=
  let kv : Loc Expression × Option (Loc Expression) :=
    match expression.item with
    | Expression.Binary OperatorKind.Assign left right => (left, some right)
    | _ => (expression, none)
  match kv.1.item with
  | Expression.Identifier ident =>
    (⟨expression.start, expression.stop, ⟨ParameterKey.Identifier ident, kv.2⟩⟩, st)
  | _ => PState.error (Loc Parameter) st

/-- The for-loop of `params_from_expressions`: convert the remaining
expressions, pushing each resulting parameter. -/
def paramsFromExpressionsLoop :
    List (Loc Expression) → List (Loc Parameter) → PState →
    List (Loc Parameter) × PState
  | [], acc, st => (acc, st)
  | e :: rest, acc, st =>
    let pp := param_from_expression st e
    paramsFromExpressionsLoop rest (acc ++ [pp.1]) pp.2

/-- `params_from_expressions` (mod.rs lines 184-202): an empty input list
yields the empty list; otherwise the builder is seeded with the first
converted parameter and the rest are pushed in order. -/
def params_from_expressions (st : PState) (expressions : List (Loc Expression)) :
    List (Loc Parameter) × PState :=
  match expressions with
  | [] => ([], st)
  | e :: rest =>
    let pp := param_from_expression st e
    paramsFromExpressionsLoop rest [pp.1] pp.2

/-- The spec's description of `params_from_expressions`: map
`param_from_expression` over the list in order, threading the parser
state left to right. -/
def paramsFromExpressionsMapped :
    List (Loc Expression) → PState → List (Loc Parameter) × PState
  | [], st => ([], st)
  | e :: rest, st =>
    let pp := param_from_expression st e
    let r := paramsFromExpressionsMapped rest pp.2
    (pp.1 :: r.1, r.2)

/-- The loop of `parameter_list` (mod.rs lines 204-242): parse a key; on
an assignment operator consume it, latch `require_defaults`, and parse a
default at binding power B1; a missing default while `require_defaults`
is set triggers recovery for the whole list; then push the parameter and
continue on a comma, finish on a closing parenthesis, or trigger recovery
for the whole list on anything else. -/
def parameterListLoop (keyP : KeyP) (exprP : ExprP) :
    Nat → List (Loc Parameter) → Bool → PState →
    List (Loc Parameter) × PState
  | 0, acc, _, st => (acc, st)
  | fuel + 1, acc, require_defaults, st0 =>
    let kp := keyP st0
    let vstep : Option (Option (Loc Expression) × Bool × PState) :=
      match kp.2.token, require_defaults with
      | Tok.OperatorAssign, _ =>
        let ep := exprP kp.2.consume
        some (some ep.1, true, ep.2)
      | _, true => none
      | _, false => some (none, false, kp.2)
    match vstep with
    | none => PState.error (List (Loc Parameter)) kp.2
    | some (value, rd2, st2) =>
      let acc2 := acc ++ [st2.inLoc (⟨kp.1, value⟩ : Parameter)]
      match st2.token with
      | Tok.ParenClose => (acc2, st2.consume)
      | Tok.Comma => parameterListLoop keyP exprP fuel acc2 rd2 st2.consume
      | _ => PState.error (List (Loc Parameter)) st2

/-- `parameter_list` (mod.rs lines 204-242): run the loop with an empty
builder and the `require_defaults` latch initially false. -/
def parameter_list (keyP : KeyP) (exprP : ExprP) (fuel : Nat) (st : PState) :
    List (Loc Parameter) × PState :=
  parameterListLoop keyP exprP fuel [] false st

/-- Modelled from the spec: a miniature parameter-key parser standing for
the `parameter_key!` macro (outside the visible core): an identifier token
becomes an identifier key and is consumed.  The macro's failure behaviour
is not visible; the modelled fallback returns an empty-named key without
consuming, and no concrete evaluation in this file exercises it. -/
def parameterKey (st : PState) : ParameterKey × PState :=
  match st.token with
  | Tok.Identifier name => (ParameterKey.Identifier name, st.consume)
  | _ => (ParameterKey.Identifier "", st)

/-- Modelled from the spec: a miniature expression parser at binding power
B1 standing for `self.expression(B1)` (outside the visible core): a single
identifier or number token becomes an expression; anything else triggers
expression recovery. -/
def expressionB1 (st : PState) : Loc Expression × PState :=
  match st.token with
  | Tok.Identifier name => (st.inLoc (Expression.Identifier name), st.consume)
  | Tok.Number value => (st.inLoc (Expression.Literal value), st.consume)
  | _ => PState.error (Loc Expression) st

/-- The key position of `param_from_expression`: the left side of a
top-level `Assign` binary expression, otherwise the whole expression. -/
def paramKeyCandidate (expression : Loc Expression) : Loc Expression :=
  match expression.item with
  | Expression.Binary OperatorKind.Assign left _ => left
  | _ => expression

/-- Whether an expression is a plain identifier expression. -/
def isIdentifierExpr : Expression → Bool
  | Expression.Identifier _ => true
  | _ => false

/-- The "defaults required" latch, observed on a finished parameter list:
once a parameter carries a default value, every later parameter does. -/
def defaultsLatched (l : List (Loc Parameter)) : Prop :=
  l.Pairwise fun p q => p.item.value.isSome = true → q.item.value.isSome = true

/-! ### Helper lemmas -/

theorem rawBlockLoop_append {I : Type} (itemP : PState → Loc I × PState) :
    ∀ (fuel : Nat) (acc : List (Loc I)) (st : PState),
      rawBlockLoop itemP fuel acc st =
        (acc ++ (itemsUntilBrace itemP fuel st).1,
         (itemsUntilBrace itemP fuel st).2) := by
  intro fuel
  induction fuel with
  | zero =>
    intro acc st
    simp [rawBlockLoop, itemsUntilBrace]
  | succ n ih =>
    intro acc st
    by_cases h : st.token = Tok.BraceClose
    · simp [rawBlockLoop, itemsUntilBrace, h]
    · simp [rawBlockLoop, itemsUntilBrace, h, ih]

theorem paramsFromExpressionsLoop_append :
    ∀ (rest : List (Loc Expression)) (acc : List (Loc Parameter)) (st : PState),
      paramsFromExpressionsLoop rest acc st =
        (acc ++ (paramsFromExpressionsMapped rest st).1,
         (paramsFromExpressionsMapped rest st).2) := by
  intro rest
  induction rest with
  | nil =>
    intro acc st
    simp [paramsFromExpressionsLoop, paramsFromExpressionsMapped]
  | cons e es ih =>
    intro acc st
    simp [paramsFromExpressionsLoop, paramsFromExpressionsMapped, ih]

theorem paramsFromExpressionsMapped_length :
    ∀ (expressions : List (Loc Expression)) (st : PState),
      (paramsFromExpressionsMapped expressions st).1.length = expressions.length := by
  intro expressions
  induction expressions with
  | nil =>
    intro st
    simp [paramsFromExpressionsMapped]
  | cons e es ih =>
    intro st
    simp [paramsFromExpressionsMapped, ih]

theorem parameterListLoop_true_mem (keyP : KeyP) (exprP : ExprP) :
    ∀ (fuel : Nat) (acc : List (Loc Parameter)) (st : PState),
      ∀ p ∈ (parameterListLoop keyP exprP fuel acc true st).1,
        p ∈ acc ∨ p.item.value.isSome = true := by
  intro fuel
  induction fuel with
  | zero =>
    intro acc st p hp
    simp only [parameterListLoop] at hp
    exact Or.inl hp
  | succ n ih =>
    intro acc st p hp
    simp only [parameterListLoop] at hp
    cases htok : (keyP st).2.token <;> simp only [htok] at hp
    case OperatorAssign =>
      cases htok2 : (exprP (keyP st).2.consume).2.token <;> simp only [htok2] at hp
      case ParenClose =>
        rcases List.mem_append.mp hp with h | h
        · exact Or.inl h
        · exact Or.inr (by simp_all [PState.inLoc])
      case Comma =>
        rcases ih _ _ p hp with h | h
        · rcases List.mem_append.mp h with h2 | h2
          · exact Or.inl h2
          · exact Or.inr (by simp_all [PState.inLoc])
        · exact Or.inr h
      all_goals simp_all [PState.error, Handle.handleError]
    all_goals simp_all [PState.error, Handle.handleError]

theorem defaultsLatched_append_some (l : List (Loc Parameter)) (x : Loc Parameter)
    (hl : defaultsLatched l) (hx : x.item.value.isSome = true) :
    defaultsLatched (l ++ [x]) := by
  unfold defaultsLatched at *
  rw [List.pairwise_append]
  refine ⟨hl, List.pairwise_singleton _ _, ?_⟩
  intro a _ b hb
  simp only [List.mem_singleton] at hb
  subst hb
  intro _
  exact hx

theorem defaultsLatched_append_none (l : List (Loc Parameter)) (x : Loc Parameter)
    (hl : defaultsLatched l) (hnone : ∀ p ∈ l, p.item.value = none) :
    defaultsLatched (l ++ [x]) := by
  unfold defaultsLatched at *
  rw [List.pairwise_append]
  refine ⟨hl, List.pairwise_singleton _ _, ?_⟩
  intro a ha b hb hsome
  rw [hnone a ha] at hsome
  simp at hsome

theorem parameterListLoop_pairwise (keyP : KeyP) (exprP : ExprP) :
    ∀ (fuel : Nat) (acc : List (Loc Parameter)) (rd : Bool) (st : PState),
      (rd = false → ∀ p ∈ acc, p.item.value = none) →
      defaultsLatched acc →
      defaultsLatched (parameterListLoop keyP exprP fuel acc rd st).1 := by
  intro fuel
  induction fuel with
  | zero =>
    intro acc rd st _ hacc
    simpa [parameterListLoop] using hacc
  | succ n ih =>
    intro acc rd st hnone hacc
    simp only [parameterListLoop]
    cases rd with
    | true =>
      cases htok : (keyP st).2.token <;> simp only [htok]
      case OperatorAssign =>
        cases htok2 : (exprP (keyP st).2.consume).2.token <;> simp only [htok2]
        case ParenClose =>
          exact defaultsLatched_append_some _ _ hacc (by simp [PState.inLoc])
        case Comma =>
          refine ih _ true _ (by simp) ?_
          exact defaultsLatched_append_some _ _ hacc (by simp [PState.inLoc])
        all_goals simp [PState.error, Handle.handleError, defaultsLatched]
      all_goals simp [PState.error, Handle.handleError, defaultsLatched]
    | false =>
      have hnone2 := hnone rfl
      cases htok : (keyP st).2.token <;> simp only [htok]
      case OperatorAssign =>
        cases htok2 : (exprP (keyP st).2.consume).2.token <;> simp only [htok2]
        case ParenClose =>
          exact defaultsLatched_append_some _ _ hacc (by simp [PState.inLoc])
        case Comma =>
          refine ih _ true _ (by simp) ?_
          exact defaultsLatched_append_some _ _ hacc (by simp [PState.inLoc])
        all_goals simp [PState.error, Handle.handleError, defaultsLatched]
      case ParenClose =>
        exact defaultsLatched_append_none _ _ hacc hnone2
      case Comma =>
        refine ih _ false _ ?_ ?_
        · intro _ p hp
          simp only [List.mem_append, List.mem_singleton] at hp
          rcases hp with h | h
          · exact hnone2 p h
          · subst h
            simp [PState.inLoc]
        · exact defaultsLatched_append_none _ _ hacc hnone2
      all_goals simp [PState.error, Handle.handleError, defaultsLatched]

/-! ### Claim theorems -/

/-- Claim C1: for every source text (every token stream, any statement
sub-parser, any fuel), the top-level entry point `parse(source)` returns
`Ok(Module)` exactly when the parser's error log is empty when parsing
completes; a non-empty log yields `Err` with the full ordered list of
recorded diagnostics, never a tree. -/
theorem parse_ok_iff_empty_error_log (stmtP : StmtP) (fuel : Nat) (source : String) :
    parse stmtP fuel source =
      if (PState.parse stmtP fuel (PState.new source)).errors = []
      then Except.ok ⟨(PState.parse stmtP fuel (PState.new source)).body⟩
      else Except.error (PState.parse stmtP fuel (PState.new source)).errors := by
  simp only [parse]
  cases h : (PState.parse stmtP fuel (PState.new source)).errors <;> simp [h]

/-- Claim C4: parsing the empty source text returns `Ok` with an empty
statement list and an empty error list; and whenever the lexer is already
at end-of-input, `Parser::parse` leaves the state untouched (empty body,
no diagnostic), for any statement sub-parser. -/
theorem parse_empty_input (stmtP : StmtP) (fuel : Nat) :
    parse stmtP fuel "" = Except.ok ⟨[]⟩ ∧
    (PState.parse stmtP fuel (PState.new "")).body = [] ∧
    (PState.parse stmtP fuel (PState.new "")).errors = [] ∧
    ∀ st : PState, st.token = Tok.EndOfProgram → PState.parse stmtP fuel st = st := by
  refine ⟨rfl, rfl, rfl, ?_⟩
  intro st h
  simp [PState.parse, h]

/-- Claim C7: for every item sub-parser, `raw_block` invoked when the
current token is already a closing brace returns a block with the empty
list as body, leaves the state untouched, and never invokes the item
parser; otherwise it parses the first item and then repeatedly parses and
pushes items until the closing brace is current, in parse order
(`itemsUntilBrace` is that order, in cons form). -/
theorem raw_block_spec {I : Type} (itemP : PState → Loc I × PState) (fuel : Nat)
    (st : PState) :
    raw_block itemP fuel st =
      if st.token = Tok.BraceClose then (⟨[]⟩, st)
      else
        ((⟨(itemP st).1 :: (itemsUntilBrace itemP fuel (itemP st).2).1⟩ : Block I),
         (itemsUntilBrace itemP fuel (itemP st).2).2) := by
  by_cases h : st.token = Tok.BraceClose
  · simp [raw_block, h]
  · simp [raw_block, h, rawBlockLoop_append]

/-- Claim C6: the recovery placeholders have exactly the stated shapes:
`Statement` and `Expression` yield their dedicated `Error` variants, a
`Declarator` a zero-span error-expression name with no initializer, an
`ObjectMember` the shorthand variant, a `ClassMember` a constructor with
empty parameter and body lists, a `Function` an empty name with empty
parameter list and empty body, and a `Class` an empty name with no
superclass and an empty body (the source `Class` has no parameter-list
field; its `extends` field is the `superclass` here). -/
theorem placeholder_shapes :
    (ToError.toError : Statement) = Statement.Error ∧
    (ToError.toError : Expression) = Expression.Error ∧
    (ToError.toError : Declarator) =
      { name := ⟨0, 0, Expression.Error⟩, value := none } ∧
    (ToError.toError : ObjectMember) = ObjectMember.Shorthand "" ∧
    (ToError.toError : ClassMember) = ClassMember.Constructor [] [] ∧
    (∀ (N : Type) [Name N] (st : PState) (err : Error),
      (Handle.handleError st err : Function N × PState).1 =
        { name := Name.empty, params := [], body := [] }) ∧
    (∀ (N : Type) [Name N] (st : PState) (err : Error),
      (Handle.handleError st err : Class N × PState).1 =
        { name := Name.empty, superclass := none, body := [] }) := by
  refine ⟨rfl, rfl, rfl, rfl, rfl, ?_, ?_⟩ <;> intros <;> rfl

/-- Claim C3: recovery for a located node (`Loc<T>`) and recovery for a
`Function` or `Class` each append exactly one diagnostic to the error log
before the placeholder is returned, even though the `Loc<T>` step invokes
the scalar `to_error` synthesis (which is pure and appends nothing): the
whole recovery appends `[err]` and nothing else, so each failure site
records exactly one diagnostic, never two. -/
theorem located_recovery_records_exactly_one :
    (∀ (T : Type) [ToError T] (st : PState) (err : Error),
      (Handle.handleError st err : Loc T × PState).2.errors = st.errors ++ [err] ∧
      (Handle.handleError st err : Loc T × PState).1.item = (ToError.toError : T)) ∧
    (∀ (N : Type) [Name N] (st : PState) (err : Error),
      (Handle.handleError st err : Function N × PState).2.errors =
        st.errors ++ [err]) ∧
    (∀ (N : Type) [Name N] (st : PState) (err : Error),
      (Handle.handleError st err : Class N × PState).2.errors =
        st.errors ++ [err]) := by
  refine ⟨?_, ?_, ?_⟩ <;> intros <;> first | exact ⟨rfl, rfl⟩ | rfl

/-- Claim C10: every diagnostic appended through the parser's internal
error helper (`Parser::error`) — for located nodes, lists of located
nodes, functions and classes alike — is exactly the value the lexer's
`invalid_token()` returns at that moment, and the helper appends nothing
else. -/
theorem error_helper_records_invalid_token :
    (∀ (T : Type) [ToError T] (st : PState),
      (PState.error (Loc T) st).2.errors = st.errors ++ [st.invalidToken]) ∧
    (∀ (T : Type) (st : PState),
      (PState.error (List (Loc T)) st).2.errors = st.errors ++ [st.invalidToken]) ∧
    (∀ (N : Type) [Name N] (st : PState),
      (PState.error (Function N) st).2.errors = st.errors ++ [st.invalidToken]) ∧
    (∀ (N : Type) [Name N] (st : PState),
      (PState.error (Class N) st).2.errors = st.errors ++ [st.invalidToken]) := by
  refine ⟨?_, ?_, ?_, ?_⟩ <;> intros <;> rfl

/-- Claim C2: recovery for an entire list of located nodes yields the
empty list with exactly one appended diagnostic; in `parameter_list`, a
non-default parameter reached while `require_defaults` is latched
triggers exactly that list-level recovery (for any key and expression
sub-parsers), discarding whatever the builder held; and on the concrete
source `(a = 1, b)` the parameter list result is empty with exactly one
recorded diagnostic. -/
theorem list_recovery_empty_and_single_diagnostic :
    (∀ (T : Type) (st : PState) (err : Error),
      (Handle.handleError st err : List (Loc T) × PState) =
        ([], { st with errors := st.errors ++ [err] })) ∧
    (∀ (keyP : KeyP) (exprP : ExprP) (fuel : Nat) (acc : List (Loc Parameter))
        (st : PState),
      (keyP st).2.token ≠ Tok.OperatorAssign →
      parameterListLoop keyP exprP (fuel + 1) acc true st =
        ([], { (keyP st).2 with
                errors := (keyP st).2.errors ++ [(keyP st).2.invalidToken] })) ∧
    (parameter_list parameterKey expressionB1 6 ((PState.new "(a = 1, b)").consume)).1
      = [] ∧
    (parameter_list parameterKey expressionB1 6
      ((PState.new "(a = 1, b)").consume)).2.errors.length = 1 := by
  refine ⟨fun T st err => rfl, ?_, rfl, rfl⟩
  intro keyP exprP fuel acc st h
  simp only [parameterListLoop]
  cases htok : (keyP st).2.token <;>
    simp_all [PState.error, Handle.handleError]

/-- Claim C9: `params_from_expressions` converts each input expression to
exactly one parameter, in input order (it agrees with the order-preserving
map `paramsFromExpressionsMapped`), so the output has exactly the input's
length; a failed element conversion never shortens or aborts the list. -/
theorem params_from_expressions_length_order (st : PState)
    (expressions : List (Loc Expression)) :
    params_from_expressions st expressions =
      paramsFromExpressionsMapped expressions st ∧
    (params_from_expressions st expressions).1.length = expressions.length := by
  have hmain : params_from_expressions st expressions =
      paramsFromExpressionsMapped expressions st := by
    cases expressions with
    | nil => rfl
    | cons e rest =>
      simp [params_from_expressions, paramsFromExpressionsMapped,
        paramsFromExpressionsLoop_append]
  refine ⟨hmain, ?_⟩
  rw [hmain]
  exact paramsFromExpressionsMapped_length expressions st

/-- Claim C5: `param_from_expression` splits a top-level `Assign` binary
expression into key (left side) and default value (right side), takes any
other expression whole as the key with no default, and triggers single-
parameter recovery — one appended diagnostic, the placeholder parameter —
whenever the key position is not a plain identifier expression. -/
theorem param_from_expression_spec (st : PState) (expression : Loc Expression) :
    (∀ (left right : Loc Expression) (ident : String),
      expression.item = Expression.Binary OperatorKind.Assign left right →
      left.item = Expression.Identifier ident →
      param_from_expression st expression =
        (⟨expression.start, expression.stop,
          ⟨ParameterKey.Identifier ident, some right⟩⟩, st)) ∧
    (∀ ident : String,
      expression.item = Expression.Identifier ident →
      param_from_expression st expression =
        (⟨expression.start, expression.stop,
          ⟨ParameterKey.Identifier ident, none⟩⟩, st)) ∧
    (isIdentifierExpr (paramKeyCandidate expression).item = false →
      param_from_expression st expression = PState.error (Loc Parameter) st ∧
      (param_from_expression st expression).2.errors =
        st.errors ++ [st.invalidToken] ∧
      (param_from_expression st expression).1.item = (ToError.toError : Parameter)) := by
  refine ⟨?_, ?_, ?_⟩
  · intro left right ident h1 h2
    simp [param_from_expression, h1, h2]
  · intro ident h
    simp [param_from_expression, h]
  · intro h
    have hmain : param_from_expression st expression =
        PState.error (Loc Parameter) st := by
      cases hi : expression.item with
      | Identifier s =>
        simp [paramKeyCandidate, hi, isIdentifierExpr] at h
      | Literal s =>
        simp [param_from_expression, hi]
      | Binary op left right =>
        cases op with
        | Assign =>
          cases hl : left.item with
          | Identifier s =>
            simp [paramKeyCandidate, hi, hl, isIdentifierExpr] at h
          | Literal s => simp [param_from_expression, hi, hl]
          | Binary op2 l2 r2 => simp [param_from_expression, hi, hl]
          | Error => simp [param_from_expression, hi, hl]
        | Addition => simp [param_from_expression, hi]
      | Error =>
        simp [param_from_expression, hi]
    exact ⟨hmain, by rw [hmain]; rfl, by rw [hmain]; rfl⟩

/-- Claim C8: within one `parameter_list` run the `require_defaults` flag
is a one-way latch: the list starts with the flag false and an empty
builder; whenever the loop runs with the flag already latched, every
parameter it adds beyond the builder's current contents carries a default
value (a parameter without one triggers list recovery instead); and hence
on the finished list, every parameter after the first defaulted parameter
is defaulted. -/
theorem require_defaults_latch (keyP : KeyP) (exprP : ExprP) (fuel : Nat)
    (st : PState) :
    parameter_list keyP exprP fuel st =
      parameterListLoop keyP exprP fuel [] false st ∧
    defaultsLatched (parameter_list keyP exprP fuel st).1 ∧
    ∀ (acc : List (Loc Parameter)) (st2 : PState),
      ∀ p ∈ (parameterListLoop keyP exprP fuel acc true st2).1,
        p ∈ acc ∨ p.item.value.isSome = true := by
  refine ⟨rfl, ?_, ?_⟩
  · exact parameterListLoop_pairwise keyP exprP fuel [] false st (by simp)
      (by simp [defaultsLatched])
  · intro acc st2
    exact parameterListLoop_true_mem keyP exprP fuel acc st2

end Ratel
